import Mathlib

/-!
Verification of the OpenPNM repository artifacts against their
natural-language specification.

The repository contains two artifacts:

1. a single-page D3.js tree-visualization script that fetches a hierarchy
   JSON from a fixed local endpoint and renders an SVG tree of pore/throat
   nodes (shallowly embedded below: `jsSplit`, `buildHierarchy`,
   `treemapWith`, `descWP`, `renderTree`, `visualizeCallback`, `pageRun`);

2. a notebook running a transient Fickian diffusion simulation through the
   OpenPNM library, whose printed property table after the run is embedded
   as `fdPropertyTable`.

JavaScript strings are modelled as `String` / `List Char`; floating-point
layout coordinates are modelled over `ℚ` (the claims under study only move
coordinates around, never round them); the asynchronous fetch callback is
modelled as a function of the fetch outcome.
-/

/-! ### JavaScript string primitives used by the visualizer -/

/-- The JavaScript `String.prototype.split` with a one-character separator:
splits at every occurrence of the separator, keeping empty fields, and
yields `[""]` on the empty string. -/
def jsSplit (sep : Char) : List Char → List (List Char)
  | [] => [[]]
  | c :: cs =>
    match jsSplit sep cs with
    | [] => [[]]
    | t :: ts => if c = sep then [] :: t :: ts else (c :: t) :: ts

/-- The field of a character list before the first occurrence of `sep`
(the whole list when `sep` does not occur). -/
def firstTok (sep : Char) : List Char → List Char
  | [] => []
  | c :: cs => if c = sep then [] else c :: firstTok sep cs

/-- The characters strictly after the first occurrence of `sep`, or `none`
when `sep` does not occur. -/
def afterFirstChar (sep : Char) : List Char → Option (List Char)
  | [] => none
  | c :: cs => if c = sep then some cs else afterFirstChar sep cs

theorem jsSplit_ne_nil (sep : Char) (l : List Char) : jsSplit sep l ≠ [] := by
  induction l with
  | nil => simp [jsSplit]
  | cons c cs ih =>
    simp only [jsSplit]
    cases h : jsSplit sep cs with
    | nil => simp
    | cons t ts =>
      by_cases hc : c = sep <;> simp [hc]

theorem jsSplit_head (sep : Char) (l : List Char) :
    (jsSplit sep l).head? = some (firstTok sep l) := by
  induction l with
  | nil => rfl
  | cons c cs ih =>
    simp only [jsSplit, firstTok]
    cases h : jsSplit sep cs with
    | nil => exact absurd h (jsSplit_ne_nil sep cs)
    | cons t ts =>
      rw [h] at ih
      have ht : t = firstTok sep cs := by simpa [List.head?] using ih
      by_cases hc : c = sep <;> simp [hc, ht]

/-- The second field of a JavaScript one-character split is the part of the
input strictly between the first separator and the following separator or
the end of the input; it is absent when the separator does not occur. -/
theorem jsSplit_second (sep : Char) (l : List Char) :
    (jsSplit sep l)[1]? = (afterFirstChar sep l).map (firstTok sep) := by
  induction l with
  | nil => rfl
  | cons c cs ih =>
    simp only [jsSplit, afterFirstChar]
    cases h : jsSplit sep cs with
    | nil => exact absurd h (jsSplit_ne_nil sep cs)
    | cons t ts =>
      rw [h] at ih
      by_cases hc : c = sep
      · have ht : t = firstTok sep cs := by
          have := jsSplit_head sep cs
          rw [h] at this
          simpa [List.head?] using this
        simp [hc, ht]
      · simpa [hc] using ih

/-! ### Data model of the fetched hierarchy JSON -/

/-- A node of the fetched tree JSON: a `name`, a `color` (hex string
without a leading hash sign), and an optional `children` array (`none`
models an absent `children` key). -/
inductive TreeData where
  | mk (name : String) (color : String) (children : Option (List TreeData))

def TreeData.name : TreeData → String
  | .mk n _ _ => n

def TreeData.color : TreeData → String
  | .mk _ c _ => c

def TreeData.children : TreeData → Option (List TreeData)
  | .mk _ _ cs => cs

/-- A node produced by `d3.hierarchy`: the original datum plus the child
nodes (the empty list when the datum has no, or an empty, `children`
array, mirroring the truthiness-and-length check of `d3.hierarchy`). -/
inductive HNode where
  | mk (data : TreeData) (children : List HNode)

def HNode.data : HNode → TreeData
  | .mk d _ => d

def HNode.children : HNode → List HNode
  | .mk _ cs => cs

mutual
/-- The `d3.hierarchy(treeData, d => d.children)` call of the source:
children come from the `children` field; an absent or empty array yields a
node without children. -/
def buildHierarchy : TreeData → HNode
  | .mk n c none => .mk (.mk n c none) []
  | .mk n c (some l) => .mk (.mk n c (some l)) (buildForest l)

/-- Children of a hierarchy node, built datum by datum. -/
def buildForest : List TreeData → List HNode
  | [] => []
  | d :: ds => buildHierarchy d :: buildForest ds
end

/-- A node after the `treemap` layout: the datum, the layout coordinates
`x` and `y` assigned by `d3.tree()`, and the laid-out children. -/
inductive LNode where
  | mk (data : TreeData) (x y : ℚ) (children : List LNode)

def LNode.data : LNode → TreeData
  | .mk d _ _ _ => d

def LNode.x : LNode → ℚ
  | .mk _ x _ _ => x

def LNode.y : LNode → ℚ
  | .mk _ _ y _ => y

def LNode.children : LNode → List LNode
  | .mk _ _ _ cs => cs

mutual
/-- The `treemap(nodes)` layout step. The layout algorithm itself lives in
the external D3 library, so its coordinate assignment is abstracted as a
function `pos` from a datum to its `(x, y)` coordinates; every theorem
below quantifies over all such assignments. -/
def treemapWith (pos : TreeData → ℚ × ℚ) : HNode → LNode
  | .mk d cs => .mk d (pos d).1 (pos d).2 (treemapForest pos cs)

/-- Layout of a list of hierarchy nodes. -/
def treemapForest (pos : TreeData → ℚ × ℚ) : List HNode → List LNode
  | [] => []
  | h :: hs => treemapWith pos h :: treemapForest pos hs
end

/-- The laid-out hierarchy of a fetched JSON document: `d3.hierarchy`
followed by `treemap`. -/
def layoutOf (pos : TreeData → ℚ × ℚ) (d : TreeData) : LNode :=
  treemapWith pos (buildHierarchy d)

mutual
/-- The descendants of a node paired with their parent (`none` for the
node the traversal started from), mirroring `nodes.descendants()` together
with the `.parent` links that `d3.hierarchy` maintains. The node itself
comes first, as in D3. -/
def descWP (par : Option LNode) : LNode → List (LNode × Option LNode)
  | .mk d x y cs => ((.mk d x y cs : LNode), par) :: descWPForest (.mk d x y cs) cs

/-- Descendants of a list of siblings, all with parent `par`. -/
def descWPForest (par : LNode) : List LNode → List (LNode × Option LNode)
  | [] => []
  | c :: cs => descWP (some par) c ++ descWPForest par cs
end

/-- The `nodes.descendants()` array of the source. -/
def descendantsOf (root : LNode) : List LNode :=
  (descWP none root).map Prod.fst

/-! ### Rendering of links and nodes -/

/-- The marker shapes the source can select via `d3.symbol().type`. -/
inductive SymbolType where
  | circle
  | square
deriving DecidableEq

/-- A cubic Bezier link path, the four coordinate pairs of the
`"M" ... "C" ... ... ...` path string built by the source. -/
structure LinkPath where
  m : ℚ × ℚ
  c1 : ℚ × ℚ
  c2 : ℚ × ℚ
  endp : ℚ × ℚ
deriving DecidableEq

/-- The `d` attribute of a link, built from a node `d` and its parent
exactly as in the source: move to `(d.y/2, d.x)`, control points at the
midpoint abscissa, end at `(d.parent.y/2, d.parent.x)`. -/
def mkLink (d par : LNode) : LinkPath :=
  { m := (d.y / 2, d.x)
    c1 := ((d.y / 2 + par.y / 2) / 2, d.x)
    c2 := ((d.y / 2 + par.y / 2) / 2, par.x)
    endp := (par.y / 2, par.x) }

/-- The node group `transform` attribute `translate(d.y/2, d.x)`. -/
def nodeTransform (d : LNode) : ℚ × ℚ :=
  (d.y / 2, d.x)

/-- The link path elements: one per element of `descendants().slice(1)`,
using the node and its parent (nodes with no parent yield no path). -/
def renderLinks (root : LNode) : List LinkPath :=
  ((descWP none root).drop 1).filterMap (fun z => z.2.map (fun par => mkLink z.1 par))

/-- The `class` attribute of a node group: `node--internal` when the
hierarchy node has children, `node--leaf` otherwise. -/
def nodeClass (ln : LNode) : String :=
  "node" ++ (if ln.children.isEmpty then " node--leaf" else " node--internal")

/-- The marker type accessor of the source: circle for a name starting
with `pore`, square for a name starting with `throat`, and no value
otherwise (the accessor falls through without returning). -/
def markerType (name : String) : Option SymbolType :=
  if ("pore".data).isPrefixOf name.data then some SymbolType.circle
  else if ("throat".data).isPrefixOf name.data then some SymbolType.square
  else none

/-- The text label of a node: `name.split('.')[1]`, absent when the split
has fewer than two fields. -/
def labelText (name : String) : Option String :=
  ((jsSplit '.' name.data)[1]?).map (fun l => String.mk l)

/-- One rendered node group: its class, translate position, marker shape,
marker fill, and text label. -/
structure NodeElem where
  cls : String
  tpos : ℚ × ℚ
  shape : Option SymbolType
  fill : String
  label : Option String
deriving DecidableEq

/-- The SVG element appended for one laid-out node. -/
def renderNode (ln : LNode) : NodeElem :=
  { cls := nodeClass ln
    tpos := nodeTransform ln
    shape := markerType ln.data.name
    fill := "#" ++ ln.data.color
    label := labelText ln.data.name }

/-- Everything the callback appends to the SVG group `g`. -/
structure Rendered where
  links : List LinkPath
  nodes : List NodeElem
deriving DecidableEq

/-- The rendering of one fetched JSON document under the layout `pos`:
hierarchy, layout, link paths for the non-root descendants, and one node
group (marker plus label) per descendant. -/
def renderTree (pos : TreeData → ℚ × ℚ) (d : TreeData) : Rendered :=
  let root := layoutOf pos d
  { links := renderLinks root
    nodes := (descendantsOf root).map renderNode }

/-! ### The page: query parsing, fetch, callback -/

/-- An error value handed to the `d3.json` callback. -/
inductive JsError where
  | mk (msg : String)
deriving DecidableEq

/-- The `d3.json` callback of the source: `if (error) throw error;`
followed by the rendering. A thrown error is the `Except.error` result,
and nothing is rendered on that path. -/
def visualizeCallback (pos : TreeData → ℚ × ℚ) (err : Option JsError)
    (treeData : TreeData) : Except JsError Rendered :=
  match err with
  | some e => Except.error e
  | none => Except.ok (renderTree pos treeData)

/-- The link paths appended to the SVG by a callback outcome. -/
def appendedLinks : Except JsError Rendered → List LinkPath
  | .error _ => []
  | .ok r => r.links

/-- The node groups appended to the SVG by a callback outcome. -/
def appendedNodes : Except JsError Rendered → List NodeElem
  | .error _ => []
  | .ok r => r.nodes

/-- The query parse of the source:
`window.location.search.substring(1).split("=")[1]`. -/
def parseFileVar (search : String) : Option String :=
  ((jsSplit '=' (search.data.drop 1))[1]?).map (fun l => String.mk l)

/-- A full page load: the observable state after the script has run and
the fetch callback has fired, namely the parsed `file` variable, the URL
the HTTP GET was issued to, and the callback outcome. -/
structure PageRun where
  fileVar : Option String
  url : String
  result : Except JsError Rendered

/-- One run of the page: parse the query string into the (unused) `file`
variable, fetch the hardcoded endpoint, and run the callback on the fetch
outcome. -/
def pageRun (pos : TreeData → ℚ × ℚ) (search : String) (err : Option JsError)
    (treeData : TreeData) : PageRun :=
  { fileVar := parseFileVar search
    url := "http://localhost:8008/data/tree.json"
    result := visualizeCallback pos err treeData }

/-! ### Spec-side label and parameter descriptions -/

/-- The label the specification claims for a node: the substring of `name`
after the first `.` character (absent when there is no `.`). -/
def substringAfterFirstDot (name : String) : Option String :=
  (afterFirstChar '.' name.data).map (fun l => String.mk l)

/-- Removal of a leading question mark, as the specification words the
query-string parse. -/
def stripLeadQ : List Char → List Char
  | '?' :: cs => cs
  | cs => cs

/-- The parameter value the specification describes: after stripping the
leading `?`, whatever follows the first `=` up to the next `=` or the end
of the string. -/
def specParamValue (search : String) : Option String :=
  (afterFirstChar '=' (stripLeadQ search.data)).map
    (fun l => String.mk (firstTok '=' l))

/-! ### Labels (claim C1) -/

/-- The label actually rendered is the second field of the one-character
split, i.e. the part of `name` between the first `.` and the next `.` or
the end of the name. -/
theorem labelText_eq_second_field (name : String) :
    labelText name =
      (afterFirstChar '.' name.data).map (fun l => String.mk (firstTok '.' l)) := by
  unfold labelText
  rw [jsSplit_second]
  cases afterFirstChar '.' name.data <;> simp

/-- C1 counterexample: rendering a node named `pore.a.b` displays `a`,
while the substring of the name after the first `.` is `a.b`, so the
displayed label differs from the claimed one. -/
theorem label_afterFirstDot_cex :
    ((renderTree (fun _ => ((0 : ℚ), (0 : ℚ)))
        (TreeData.mk "pore.a.b" "ff0000" none)).nodes.map NodeElem.label) = [some "a"] ∧
    substringAfterFirstDot "pore.a.b" = some "a.b" ∧
    labelText "pore.a.b" ≠ substringAfterFirstDot "pore.a.b" := by
  decide

/-- C1 (amended): for every rendered node, the displayed text label equals
the field of the node's `name` between the first `.` character and the
following `.` or the end of the name (so `pore.a.b` displays `a`), and no
label value exists when the name contains no `.`. -/
theorem label_eq_second_dot_field (ln : LNode) :
    (renderNode ln).label =
      (afterFirstChar '.' ln.data.name.data).map (fun l => String.mk (firstTok '.' l)) :=
  labelText_eq_second_field ln.data.name

/-! ### Marker shapes (claim C3) -/

/-- A list with the `throat` characters as a prefix cannot have the `pore`
characters as a prefix. -/
theorem throat_prefix_not_pore (l : List Char)
    (h : (("throat".data).isPrefixOf l) = true) :
    (("pore".data).isPrefixOf l) = false := by
  have h' : ((['t', 'h', 'r', 'o', 'a', 't'] : List Char).isPrefixOf l) = true := h
  show ((['p', 'o', 'r', 'e'] : List Char).isPrefixOf l) = false
  cases l with
  | nil => simp [List.isPrefixOf] at h'
  | cons a as =>
    simp only [List.isPrefixOf, Bool.and_eq_true, beq_iff_eq] at h' ⊢
    have hpt : ('p' == a) = false := by rw [← h'.1]; decide
    rw [hpt, Bool.false_and]

/-- C3: a node whose name has one of the recognized prefixes renders with
the matching marker: a `pore`-prefixed name gets the circle symbol, a
`throat`-prefixed name gets the square symbol. -/
theorem marker_of_pore_throat (ln : LNode)
    (_h : (("pore".data).isPrefixOf ln.data.name.data) = true ∨
         (("throat".data).isPrefixOf ln.data.name.data) = true) :
    ((("pore".data).isPrefixOf ln.data.name.data) = true →
      (renderNode ln).shape = some SymbolType.circle) ∧
    ((("throat".data).isPrefixOf ln.data.name.data) = true →
      (renderNode ln).shape = some SymbolType.square) := by
  constructor
  · intro hp
    simp [renderNode, markerType, hp]
  · intro ht
    simp [renderNode, markerType, ht, throat_prefix_not_pore _ ht]

/-- Witness for C3 at the concrete name `pore.0`. -/
theorem marker_of_pore_throat_witness :
    ((("pore".data).isPrefixOf ("pore.0").data) = true) ∧
    (renderNode (LNode.mk (TreeData.mk "pore.0" "ff0000" none) 0 0 [])).shape =
      some SymbolType.circle :=
  ⟨by decide, (marker_of_pore_throat _ (Or.inl (by decide))).1 (by decide)⟩

/-! ### Error handling (claim C5) -/

/-- C5: when the fetch completes with an error, the callback rethrows that
error and appends nothing to the SVG: no link paths and no node groups
(hence no markers and no text labels). -/
theorem fetch_error_renders_nothing (pos : TreeData → ℚ × ℚ) (e : JsError)
    (treeData : TreeData) :
    visualizeCallback pos (some e) treeData = Except.error e ∧
    appendedLinks (visualizeCallback pos (some e) treeData) = [] ∧
    appendedNodes (visualizeCallback pos (some e) treeData) = [] :=
  ⟨rfl, rfl, rfl⟩

/-! ### Fixed endpoint (claim C6) -/

/-- C6: every page load issues its GET to the one fixed local URL, whatever
the query string is, and two loads that differ only in the query string
produce identical rendering results when the fetch outcome is the same. -/
theorem fixed_endpoint_query_irrelevant (pos : TreeData → ℚ × ℚ) (s1 s2 : String)
    (err : Option JsError) (treeData : TreeData) :
    (pageRun pos s1 err treeData).url = "http://localhost:8008/data/tree.json" ∧
    (pageRun pos s2 err treeData).url = (pageRun pos s1 err treeData).url ∧
    (pageRun pos s1 err treeData).result = (pageRun pos s2 err treeData).result :=
  ⟨rfl, rfl, rfl⟩

/-! ### Query-string parsing (claim C8) -/

/-- C8: on every page URL (where the query string is empty or starts with
`?`), the parsed value is the second token of splitting the stripped query
string on `=`, i.e. whatever follows the first `=` up to the next `=` or
the end of the string; nothing is validated and a missing token yields no
value. -/
theorem query_parse_second_token (search : String)
    (h : search = "" ∨ ∃ rest, search.data = '?' :: rest) :
    parseFileVar search = specParamValue search := by
  have hstrip : search.data.drop 1 = stripLeadQ search.data := by
    rcases h with h | ⟨rest, hr⟩
    · subst h; rfl
    · rw [hr]; rfl
  unfold parseFileVar specParamValue
  rw [hstrip, jsSplit_second]
  cases afterFirstChar '=' (stripLeadQ search.data) <;> simp

/-- Witness for C8 on the concrete query string `?file=treeA`. -/
theorem query_parse_second_token_witness :
    ("?file=treeA" = "" ∨ ∃ rest, ("?file=treeA").data = '?' :: rest) ∧
    parseFileVar "?file=treeA" = specParamValue "?file=treeA" ∧
    parseFileVar "?file=treeA" = some "treeA" :=
  ⟨Or.inr ⟨"file=treeA".data, by decide⟩,
   query_parse_second_token _ (Or.inr ⟨"file=treeA".data, by decide⟩),
   by decide⟩

/-! ### Link endpoints versus node transforms (claim C10) -/

/-- C10: the start point of every link path equals the rendered translate
position of the child node, and its end point equals the rendered
translate position of the parent node; the two coordinate functions agree
on every node. -/
theorem link_endpoints_match_transforms (d par : LNode) :
    (mkLink d par).m = nodeTransform d ∧ (mkLink d par).endp = nodeTransform par :=
  ⟨rfl, rfl⟩

/-! ### Link counting (claim C4) -/

/-- Every descendant entry carries a present parent, except possibly the
node the traversal started from, whose recorded parent is the start
parent. -/
theorem descWP_parent_sound :
    ∀ (par : Option LNode) (n : LNode), ∀ z ∈ descWP par n, z.2.isSome = true ∨ z.2 = par :=
  descWP.induct
    (fun par n => ∀ z ∈ descWP par n, z.2.isSome = true ∨ z.2 = par)
    (fun par cs => ∀ z ∈ descWPForest par cs, z.2.isSome = true)
    (by
      intro par d x y cs ih z hz
      simp only [descWP] at hz
      rcases List.mem_cons.mp hz with h | h
      · right; rw [h]
      · left; exact ih z h)
    (by intro par z hz; simp [descWPForest] at hz)
    (by
      intro par c cs ih1 ih2 z hz
      simp only [descWPForest] at hz
      rcases List.mem_append.mp hz with h | h
      · rcases ih1 z h with h' | h'
        · exact h'
        · rw [h']; rfl
      · exact ih2 z h)

/-- Every entry of a forest traversal carries a present parent. -/
theorem descWPForest_parent_isSome :
    ∀ (par : LNode) (cs : List LNode), ∀ z ∈ descWPForest par cs, z.2.isSome = true :=
  descWPForest.induct
    (fun par n => ∀ z ∈ descWP par n, z.2.isSome = true ∨ z.2 = par)
    (fun par cs => ∀ z ∈ descWPForest par cs, z.2.isSome = true)
    (by
      intro par d x y cs ih z hz
      simp only [descWP] at hz
      rcases List.mem_cons.mp hz with h | h
      · right; rw [h]
      · left; exact ih z h)
    (by intro par z hz; simp [descWPForest] at hz)
    (by
      intro par c cs ih1 ih2 z hz
      simp only [descWPForest] at hz
      rcases List.mem_append.mp hz with h | h
      · rcases ih1 z h with h' | h'
        · exact h'
        · rw [h']; rfl
      · exact ih2 z h)

/-- A `filterMap` that extracts a present parent from every entry keeps
the length of the list. -/
theorem length_filterMap_links (l : List (LNode × Option LNode))
    (h : ∀ z ∈ l, z.2.isSome = true) :
    (l.filterMap (fun z => z.2.map (fun par => mkLink z.1 par))).length = l.length := by
  induction l with
  | nil => rfl
  | cons a l ih =>
    have ha := h a (List.mem_cons_self a l)
    rcases a with ⟨c, p?⟩
    cases p? with
    | none => simp at ha
    | some p =>
      simp only [List.filterMap_cons, Option.map_some', List.length_cons]
      rw [ih (fun z hz => h z (List.mem_cons_of_mem _ hz))]

/-- The link paths are exactly one per non-root descendant. -/
theorem renderLinks_length (root : LNode) :
    (renderLinks root).length + 1 = (descendantsOf root).length := by
  cases root with
  | mk d x y cs =>
    simp only [renderLinks, descendantsOf, descWP, List.drop_succ_cons, List.drop_zero,
      List.map_cons, List.length_cons]
    rw [length_filterMap_links _ (descWPForest_parent_isSome _ cs), List.length_map]

/-- C4: for every fetched hierarchy JSON, one link path is created per
non-root node (the count of links is the count of nodes minus one), and
every link is the cubic Bezier path of some child-parent pair, starting at
the child's rendered position and ending at the parent's rendered
position. -/
theorem links_nonroot_count_and_endpoints (pos : TreeData → ℚ × ℚ) (d : TreeData)
    (lnk : LinkPath) (hmem : lnk ∈ renderLinks (layoutOf pos d)) :
    (renderLinks (layoutOf pos d)).length + 1 = (descendantsOf (layoutOf pos d)).length ∧
    ∃ c p, (c, some p) ∈ descWP none (layoutOf pos d) ∧ lnk = mkLink c p ∧
      lnk.m = nodeTransform c ∧ lnk.endp = nodeTransform p := by
  refine ⟨renderLinks_length _, ?_⟩
  unfold renderLinks at hmem
  obtain ⟨z, hz, hzl⟩ := List.mem_filterMap.mp hmem
  rcases z with ⟨c, p?⟩
  cases p? with
  | none => simp at hzl
  | some p =>
    simp only [Option.map_some', Option.some.injEq] at hzl
    exact ⟨c, p, List.mem_of_mem_drop hz, hzl.symm, by rw [← hzl]; rfl, by rw [← hzl]; rfl⟩

/-! ### Node classes (claim C7) -/

/-- Layout out the hierarchy children of a datum list is the same as
laying out each datum's own hierarchy. -/
theorem treemapForest_buildForest (pos : TreeData → ℚ × ℚ) (l : List TreeData) :
    treemapForest pos (buildForest l) =
      l.map (fun c => treemapWith pos (buildHierarchy c)) := by
  induction l with
  | nil => rfl
  | cons a as ih => simp [buildForest, treemapForest, ih]

/-- Every descendant of a laid-out hierarchy is itself the laid-out
hierarchy of some datum of the fetched document. -/
theorem desc_of_pipeline (pos : TreeData → ℚ × ℚ) :
    ∀ (d : TreeData) (par : Option LNode) (z : LNode × Option LNode),
      z ∈ descWP par (treemapWith pos (buildHierarchy d)) →
      ∃ d', z.1 = treemapWith pos (buildHierarchy d') :=
  buildHierarchy.induct
    (fun d => ∀ (par : Option LNode) (z : LNode × Option LNode),
      z ∈ descWP par (treemapWith pos (buildHierarchy d)) →
      ∃ d', z.1 = treemapWith pos (buildHierarchy d'))
    (fun l => ∀ (par : LNode) (z : LNode × Option LNode),
      z ∈ descWPForest par (l.map (fun c => treemapWith pos (buildHierarchy c))) →
      ∃ d', z.1 = treemapWith pos (buildHierarchy d'))
    (by
      intro n c par z hz
      simp only [buildHierarchy, treemapWith, treemapForest, descWP, descWPForest] at hz
      rcases List.mem_cons.mp hz with h | h
      · exact ⟨.mk n c none, by
          rw [h]
          simp [buildHierarchy, treemapWith, treemapForest]⟩
      · simp at h)
    (by
      intro n c l ih par z hz
      simp only [buildHierarchy, treemapWith, treemapForest_buildForest, descWP] at hz
      rcases List.mem_cons.mp hz with h | h
      · exact ⟨.mk n c (some l), by
          rw [h]
          simp [buildHierarchy, treemapWith, treemapForest_buildForest]⟩
      · exact ih _ z h)
    (by intro par z hz; simp [descWPForest] at hz)
    (by
      intro a as ih1 ih2 par z hz
      simp only [List.map_cons, descWPForest] at hz
      rcases List.mem_append.mp hz with h | h
      · exact ih1 (some par) z h
      · exact ih2 par z h)

/-- C7: in the rendering of any fetched hierarchy JSON, every node whose
datum has no `children` key gets the leaf class, and every node whose
datum has a non-empty `children` array gets the internal class. -/
theorem leaf_internal_classes (pos : TreeData → ℚ × ℚ) (d : TreeData) (ln : LNode)
    (hmem : ln ∈ descendantsOf (layoutOf pos d)) :
    (ln.data.children = none → nodeClass ln = "node node--leaf") ∧
    (ln.data.children.getD [] ≠ [] → nodeClass ln = "node node--internal") := by
  obtain ⟨z, hz, hz1⟩ := List.mem_map.mp hmem
  obtain ⟨d', hd'⟩ := desc_of_pipeline pos d none z hz
  rw [← hz1, hd']
  cases d' with
  | mk n c cs? =>
    cases cs? with
    | none =>
      refine ⟨fun _ => ?_, fun hne => ?_⟩
      · simp [buildHierarchy, treemapWith, treemapForest, nodeClass, LNode.children]
      · simp [buildHierarchy, treemapWith, LNode.data, TreeData.children] at hne
    | some l =>
      refine ⟨fun hnone => ?_, fun hne => ?_⟩
      · simp [buildHierarchy, treemapWith, LNode.data, TreeData.children] at hnone
      · have hl : l ≠ [] := by
          simpa [buildHierarchy, treemapWith, LNode.data, TreeData.children] using hne
        cases l with
        | nil => exact absurd rfl hl
        | cons a as =>
          simp [buildHierarchy, treemapWith, treemapForest, buildForest, nodeClass,
            LNode.children]

/-! ### The example document of the specification (claim C2) -/

/-- The child datum of the specification's example input. -/
def exampleChild : TreeData := .mk "throat.1" "0000ff" none

/-- The specification's example input
`{"name":"pore.0","color":"ff0000","children":[{"name":"throat.1","color":"0000ff"}]}`. -/
def exampleTree : TreeData := .mk "pore.0" "ff0000" (some [exampleChild])

/-- C2: rendering the example document yields exactly one internal-class
node with a circle marker filled `#ff0000` and label `0`, exactly one
leaf-class node with a square marker filled `#0000ff` and label `1`, and
exactly one link path, which connects the leaf's rendered position to the
root's rendered position; this holds under every layout. -/
theorem example_tree_render (pos : TreeData → ℚ × ℚ) :
    (renderTree pos exampleTree).nodes.map (fun n => (n.cls, n.shape, n.fill, n.label)) =
      [("node node--internal", some SymbolType.circle, "#ff0000", some "0"),
       ("node node--leaf", some SymbolType.square, "#0000ff", some "1")] ∧
    (renderTree pos exampleTree).links =
      [mkLink (treemapWith pos (buildHierarchy exampleChild))
         (treemapWith pos (buildHierarchy exampleTree))] ∧
    (mkLink (treemapWith pos (buildHierarchy exampleChild))
        (treemapWith pos (buildHierarchy exampleTree))).m =
      nodeTransform (treemapWith pos (buildHierarchy exampleChild)) ∧
    (mkLink (treemapWith pos (buildHierarchy exampleChild))
        (treemapWith pos (buildHierarchy exampleTree))).endp =
      nodeTransform (treemapWith pos (buildHierarchy exampleTree)) := by
  refine ⟨?_, ?_, rfl, rfl⟩
  · simp only [renderTree, layoutOf, buildHierarchy, buildForest, exampleTree, exampleChild,
      treemapWith, treemapForest, descWP, descWPForest, descendantsOf,
      renderNode, nodeClass, markerType, labelText, LNode.data, LNode.children,
      TreeData.name, TreeData.color, List.map_cons, List.map_nil, List.append_nil,
      List.isEmpty_cons, List.isEmpty_nil]
    rfl
  · simp [renderTree, layoutOf, buildHierarchy, buildForest, exampleTree, exampleChild,
      treemapWith, treemapForest, descWP, descWPForest, renderLinks]

/-- Witness for C4 at the example document laid out at the origin. -/
theorem links_nonroot_count_witness :
    (mkLink (LNode.mk exampleChild 0 0 [])
        (LNode.mk exampleTree 0 0 [LNode.mk exampleChild 0 0 []]) ∈
      renderLinks (layoutOf (fun _ => ((0 : ℚ), (0 : ℚ))) exampleTree)) ∧
    (renderLinks (layoutOf (fun _ => ((0 : ℚ), (0 : ℚ))) exampleTree)).length + 1 =
      (descendantsOf (layoutOf (fun _ => ((0 : ℚ), (0 : ℚ))) exampleTree)).length := by
  have hm : mkLink (LNode.mk exampleChild 0 0 [])
      (LNode.mk exampleTree 0 0 [LNode.mk exampleChild 0 0 []]) ∈
      renderLinks (layoutOf (fun _ => ((0 : ℚ), (0 : ℚ))) exampleTree) := by
    simp [renderLinks, layoutOf, buildHierarchy, buildForest, exampleTree, exampleChild,
      treemapWith, treemapForest, descWP, descWPForest]
  exact ⟨hm, (links_nonroot_count_and_endpoints _ _ _ hm).1⟩

/-- Witness for C7 at the leaf node of the example document. -/
theorem leaf_internal_classes_witness :
    (LNode.mk exampleChild 0 0 [] ∈
      descendantsOf (layoutOf (fun _ => ((0 : ℚ), (0 : ℚ))) exampleTree)) ∧
    nodeClass (LNode.mk exampleChild 0 0 []) = "node node--leaf" := by
  have hm : LNode.mk exampleChild 0 0 [] ∈
      descendantsOf (layoutOf (fun _ => ((0 : ℚ), (0 : ℚ))) exampleTree) := by
    simp [descendantsOf, layoutOf, buildHierarchy, buildForest, exampleTree, exampleChild,
      treemapWith, treemapForest, descWP, descWPForest]
  exact ⟨hm, (leaf_internal_classes _ _ _ hm).1 rfl⟩

/-! ### Transient diffusion snapshots (claim C9) -/

/-- The property table the notebook prints for the transient Fickian
diffusion algorithm after `fd.run()` (property name, count of valid
values, count of pores), copied row by row from the recorded output. -/
def fdPropertyTable : List (String × Nat × Nat) :=
  [("pore.bc_rate", 0, 377),
   ("pore.bc_value", 26, 377),
   ("pore.concentration", 377, 377),
   ("pore.concentration@0", 377, 377),
   ("pore.concentration@10", 377, 377),
   ("pore.concentration@100", 377, 377),
   ("pore.concentration@15", 377, 377),
   ("pore.concentration@20", 377, 377),
   ("pore.concentration@25", 377, 377),
   ("pore.concentration@30", 377, 377),
   ("pore.concentration@35", 377, 377),
   ("pore.concentration@40", 377, 377),
   ("pore.concentration@45", 377, 377),
   ("pore.concentration@5", 377, 377),
   ("pore.concentration@50", 377, 377),
   ("pore.concentration@55", 377, 377),
   ("pore.concentration@60", 377, 377),
   ("pore.concentration@65", 377, 377),
   ("pore.concentration@70", 377, 377),
   ("pore.concentration@75", 377, 377),
   ("pore.concentration@80", 377, 377),
   ("pore.concentration@85", 377, 377),
   ("pore.concentration@90", 377, 377),
   ("pore.concentration@95", 377, 377),
   ("pore.ic", 377, 377)]

/-- Modelled from the spec: the times at which the transient algorithm's
run stores a per-pore snapshot of the solved quantity. The run loop itself
is OpenPNM library code not present under `src`; the specification says a
scalar `t_output` is an output interval, snapshots are stored for each
output time, and the initial and final times are always stored (the
steady-state time is not reached here, and `t_output` is a multiple of
`t_step`, so no approximation occurs; `t_step` therefore does not affect
the stored times). -/
def storedSnapshotTimes (tInitial tFinal tOutput _tStep : Nat) : List Nat :=
  (((List.range (tFinal + 1)).filter
      (fun t => decide (tInitial ≤ t) && decide (t % tOutput = 0))) ++
    [tInitial, tFinal]).eraseDups

/-- C9: with `t_initial = 0`, `t_final = 100`, `t_output = 5`, `t_step = 1`
the stored snapshot times are exactly the multiples of 5 from 0 to 100
(which include the initial time 0 and the final time 100), and for each of
them the notebook's printed table has the property key
`pore.concentration@` followed by the time, valid at all 377 of 377
pores. -/
theorem transient_snapshot_keys :
    storedSnapshotTimes 0 100 5 1 =
      [0, 5, 10, 15, 20, 25, 30, 35, 40, 45, 50, 55, 60, 65, 70, 75, 80, 85, 90, 95, 100] ∧
    (storedSnapshotTimes 0 100 5 1).all
      (fun t => decide (("pore.concentration@" ++ Nat.repr t, 377, 377) ∈ fdPropertyTable)) =
      true := by
  decide
